import Mathlib

/-!
Verification of the event-sourced ROI trade-accounting engine
(`legacy/roi_scoring_v2.py`).

The development shallowly embeds the data model and the operations of the
engine: `Fill`, `TradeLot`, `ClosedTradeLot` mirror the Python dataclasses;
`LotTracker.process_fill` / `process_sell_fill` are rendered as pure
state-passing functions over a per-wallet lot list (the Python
`self.open_lots[wallet]` entry for the one wallet under consideration —
every claim concerns a single wallet, and `process_fill` only ever touches
the list of `fill.wallet_address`).  Python floats are modelled as `ℚ`,
timestamps as `ℤ` seconds, calendar dates as `ℤ` days since the Unix epoch.
Fallible Python code (a `ZeroDivisionError` raise) is modelled with
`Option`.  In-place mutation of aliased lot objects inside
`process_sell_fill` is modelled by positional updates (`setRemaining`),
which is exact: each lot object occupies exactly one position of the
wallet's list.
-/

/-- Mirrors the `Fill` dataclass (roi_scoring_v2.py lines 127-144): one
directional token movement.  `direction` is the Python string field;
`block_timestamp` is in seconds; `id` is the DB row id. -/
structure Fill where
  wallet_address : String
  token_address : String
  token_symbol : String
  token_decimals : ℕ
  direction : String
  amount : ℚ
  price_usd : ℚ
  value_usd : ℚ
  block_number : ℕ
  block_timestamp : ℤ
  transaction_hash : String
  log_index : ℕ
  gas_cost_usd : ℚ
  counterparty : String
  id : Option ℕ := none
deriving DecidableEq, Repr

/-- Natural unique key of a fill: (transaction hash, log index) — the unique
index `idx_fills_unique` of the `token_fills` table (line 55). -/
def fillKey (f : Fill) : String × ℕ :=
  (f.transaction_hash, f.log_index)

/-- Mirrors the `TradeLot` dataclass (lines 146-158): an open FIFO lot. -/
structure TradeLot where
  wallet_address : String
  token_address : String
  token_symbol : String
  entry_amount : ℚ
  remaining_amount : ℚ
  entry_price_usd : ℚ
  entry_value_usd : ℚ
  entry_timestamp : ℤ
  entry_gas_cost_usd : ℚ
  entry_fill : Fill
deriving DecidableEq, Repr

/-- Mirrors the `ClosedTradeLot` dataclass (lines 160-181). -/
structure ClosedTradeLot where
  wallet_address : String
  token_address : String
  token_symbol : String
  trade_amount : ℚ
  entry_price_usd : ℚ
  exit_price_usd : ℚ
  entry_timestamp : ℤ
  exit_timestamp : ℤ
  hold_duration_days : ℤ
  entry_value_usd : ℚ
  exit_value_usd : ℚ
  entry_gas_cost_usd : ℚ
  exit_gas_cost_usd : ℚ
  gross_pnl_usd : ℚ
  net_pnl_usd : ℚ
  roi_percent : ℚ
  entry_fill : Fill
  exit_fill : Fill
deriving DecidableEq, Repr

/-- The open lot pushed by the BUY branch of `LotTracker.process_fill`
(lines 430-444): `remaining_amount` starts equal to `entry_amount`. -/
def mkOpenLot (fill : Fill) : TradeLot where
  wallet_address := fill.wallet_address
  token_address := fill.token_address
  token_symbol := fill.token_symbol
  entry_amount := fill.amount
  remaining_amount := fill.amount
  entry_price_usd := fill.price_usd
  entry_value_usd := fill.value_usd
  entry_timestamp := fill.block_timestamp
  entry_gas_cost_usd := fill.gas_cost_usd
  entry_fill := fill

/-- Body of the per-lot P&L block of `LotTracker.process_sell_fill`
(lines 467-506).  `sell_ratio = sell_amount / lot.entry_amount` scales the
entry value, the entry gas cost AND the exit gas cost; the exit value is
`sell_amount * sell_fill.price_usd`.  `hold_duration_days` is the floor of
the timestamp difference in days (Python `timedelta.days`), i.e. `Int.fdiv`
by 86400.  The `roi_percent` guard reproduces lines 479-481. -/
def mkClosedLot (sell_fill : Fill) (lot : TradeLot) (sell_amount : ℚ) : ClosedTradeLot :=
  let sell_ratio := sell_amount / lot.entry_amount
  let entry_cost_usd := lot.entry_value_usd * sell_ratio
  let entry_gas_usd := lot.entry_gas_cost_usd * sell_ratio
  let exit_value_usd := sell_amount * sell_fill.price_usd
  let exit_gas_usd := sell_fill.gas_cost_usd * sell_ratio
  let gross_pnl := exit_value_usd - entry_cost_usd
  let net_pnl := gross_pnl - entry_gas_usd - exit_gas_usd
  let total_cost := entry_cost_usd + entry_gas_usd
  { wallet_address := sell_fill.wallet_address
    token_address := sell_fill.token_address
    token_symbol := sell_fill.token_symbol
    trade_amount := sell_amount
    entry_price_usd := lot.entry_price_usd
    exit_price_usd := sell_fill.price_usd
    entry_timestamp := lot.entry_timestamp
    exit_timestamp := sell_fill.block_timestamp
    hold_duration_days := (sell_fill.block_timestamp - lot.entry_timestamp).fdiv 86400
    entry_value_usd := entry_cost_usd
    exit_value_usd := exit_value_usd
    entry_gas_cost_usd := entry_gas_usd
    exit_gas_cost_usd := exit_gas_usd
    gross_pnl_usd := gross_pnl
    net_pnl_usd := net_pnl
    roi_percent := if 0 < total_cost then net_pnl / total_cost * 100 else 0
    entry_fill := lot.entry_fill
    exit_fill := sell_fill }

/-- The filtered-and-indexed list comprehension of line 456-457:
`[(i, lot) for i, (token, lot) in enumerate(wallet_lots)
  if token == token_address and lot.remaining_amount > 0]`,
written with an explicit running index. -/
def tokenLotsFrom (token_address : String) (idx : ℕ) :
    List (String × TradeLot) → List (ℕ × TradeLot)
  | [] => []
  | (t, lot) :: rest =>
      if t = token_address ∧ 0 < lot.remaining_amount then
        (idx, lot) :: tokenLotsFrom token_address (idx + 1) rest
      else
        tokenLotsFrom token_address (idx + 1) rest

/-- Open lots of one token, paired with their positions (lines 456-457). -/
def tokenLots (wallet_lots : List (String × TradeLot)) (token_address : String) :
    List (ℕ × TradeLot) :=
  tokenLotsFrom token_address 0 wallet_lots

/-- The stable sort of line 460: `token_lots.sort(key=lambda x: x[1].entry_timestamp)`.
Python `list.sort` is stable; `List.insertionSort` with a total `≤` key
is the standard stable functional rendering. -/
def sortLotsByEntry (l : List (ℕ × TradeLot)) : List (ℕ × TradeLot) :=
  List.insertionSort (fun a b => a.2.entry_timestamp ≤ b.2.entry_timestamp) l

/-- The FIFO consumption loop of lines 462-513, reading the (index, lot)
snapshots in sorted order.  Returns the emitted closed lots, the positional
`remaining_amount` updates (the in-place `lot.remaining_amount -= sell_amount`
of line 512), and the final `remaining_to_sell`. -/
def sellLoop (sell_fill : Fill) :
    List (ℕ × TradeLot) → ℚ → List ClosedTradeLot × List (ℕ × ℚ) × ℚ
  | [], remaining_to_sell => ([], [], remaining_to_sell)
  | (i, lot) :: rest, remaining_to_sell =>
      if remaining_to_sell ≤ 0 then ([], [], remaining_to_sell)
      else
        let sell_amount := min remaining_to_sell lot.remaining_amount
        let r := sellLoop sell_fill rest (remaining_to_sell - sell_amount)
        (mkClosedLot sell_fill lot sell_amount :: r.1,
         (i, lot.remaining_amount - sell_amount) :: r.2.1,
         r.2.2)

/-- Positional in-place mutation of one lot's `remaining_amount`
(the aliasing of line 512: each Python lot object sits at exactly one
position of `wallet_lots`). -/
def setRemaining : List (String × TradeLot) → ℕ → ℚ → List (String × TradeLot)
  | [], _, _ => []
  | p :: rest, 0, v => (p.1, { p.2 with remaining_amount := v }) :: rest
  | p :: rest, i + 1, v => p :: setRemaining rest i v

/-- Apply the recorded positional updates in loop order. -/
def applyUpdates (wallet_lots : List (String × TradeLot)) (updates : List (ℕ × ℚ)) :
    List (String × TradeLot) :=
  updates.foldl (fun ls u => setRemaining ls u.1 u.2) wallet_lots

/-- Result of `LotTracker.process_sell_fill`: the mutated wallet lot list,
the closed lots appended to `self.closed_lots`, and the final
`remaining_to_sell` (line 516 logs a warning exactly when it is > 0). -/
structure SellResult where
  wallet_lots : List (String × TradeLot)
  closed_lots : List ClosedTradeLot
  oversell : ℚ
deriving DecidableEq, Repr

/-- Mirrors `LotTracker.process_sell_fill` (lines 450-517). -/
def process_sell_fill (sell_fill : Fill) (wallet_lots : List (String × TradeLot)) :
    SellResult :=
  let token_lots := sortLotsByEntry (tokenLots wallet_lots sell_fill.token_address)
  let r := sellLoop sell_fill token_lots sell_fill.amount
  { wallet_lots := applyUpdates wallet_lots r.2.1
    closed_lots := r.1
    oversell := r.2.2 }

/-- Per-wallet tracker state: the `self.open_lots[wallet]` list of
`(token_address, lot)` pairs and the emitted `self.closed_lots`
(lines 421-424). -/
structure LotTrackerState where
  open_lots : List (String × TradeLot)
  closed_lots : List ClosedTradeLot
deriving DecidableEq, Repr

/-- Fresh tracker (`defaultdict(list)` entry plus empty closed list). -/
def initialTracker : LotTrackerState :=
  { open_lots := [], closed_lots := [] }

/-- Mirrors `LotTracker.process_fill` (lines 426-448): BUY pushes a new open
lot, SELL runs the FIFO matcher, any other direction string is ignored.
There is no deduplication of any kind before the dispatch. -/
def process_fill (st : LotTrackerState) (fill : Fill) : LotTrackerState :=
  if fill.direction = "BUY" then
    { st with open_lots := st.open_lots ++ [(fill.token_address, mkOpenLot fill)] }
  else if fill.direction = "SELL" then
    let r := process_sell_fill fill st.open_lots
    { open_lots := r.wallet_lots, closed_lots := st.closed_lots ++ r.closed_lots }
  else
    st

/-- Fold a fill sequence through the tracker, as
`ROIScorer.process_wallet_transactions` does fill by fill (lines 908-932 —
note it calls `process_fill` for every extracted fill unconditionally;
`save_fill_to_db` with INSERT OR IGNORE only affects the database table). -/
def processFills (fills : List Fill) : LotTrackerState :=
  fills.foldl process_fill initialTracker

/-- Sum of `trade_amount` over the closed lots whose `entry_fill` is the
given fill (the aggregation quantified over in the conservation claim). -/
def sumTradeFor (closed : List ClosedTradeLot) (f : Fill) : ℚ :=
  ((closed.filter fun c => decide (c.entry_fill = f)).map fun c => c.trade_amount).sum

/-- Total remaining amount held in a wallet's open lots for one token. -/
def totalRemainingFor (lots : List (String × TradeLot)) (token_address : String) : ℚ :=
  ((lots.filter fun p => decide (p.1 = token_address)).map
      fun p => p.2.remaining_amount).sum

/-! ### Equity curve (`EquityCalculator`, lines 548-725) -/

/-- Day 16646 since the Unix epoch is 2015-07-30, the `genesis_date` of
`estimate_block_at_date` (line 646). -/
def ethereumGenesisDay : ℤ := 16646

/-- Mirrors `EquityCalculator.estimate_block_at_date` (lines 642-650):
`max(1, days_since_genesis * 7200)` with dates as days since the epoch. -/
def estimate_block_at_date (target_date : ℤ) : ℤ :=
  max 1 ((target_date - ethereumGenesisDay) * 7200)

/-- Calendar day of a second-resolution timestamp (Python
`datetime.date()` for a UTC timestamp). -/
def timestampDay (ts : ℤ) : ℤ := ts.fdiv 86400

/-- Mirrors `EquityCalculator.get_open_lots_at_date` (lines 600-610): filter
the tracker's CURRENT live lot list by entry date only — the code's own
comment notes this is a simplification and that the lot state at the target
date would need to be reconstructed. -/
def get_open_lots_at_date (open_lots : List (String × TradeLot)) (target_date : ℤ) :
    List (String × TradeLot) :=
  open_lots.filter fun p => decide (timestampDay p.2.entry_timestamp ≤ target_date)

/-- Mirrors `EquityCalculator.calculate_portfolio_value_at_date`
(lines 581-598).  The price oracle is the external collaborator
`get_price_at_block : token → block → Optional[price]`.  The Python guard
`if token_price and lot.remaining_amount > 0` skips a lot when the price is
None, when it is 0 (float falsiness), or when the remaining amount is not
positive. -/
def portfolio_step (price : String → ℤ → Option ℚ) (target_date : ℤ)
    (total : ℚ) (p : String × TradeLot) : ℚ :=
  match price p.1 (estimate_block_at_date target_date) with
  | none => total
  | some token_price =>
      if token_price ≠ 0 ∧ (0 : ℚ) < p.2.remaining_amount then
        total + p.2.remaining_amount * token_price
      else total

def calculate_portfolio_value_at_date (open_lots : List (String × TradeLot))
    (price : String → ℤ → Option ℚ) (target_date : ℤ) : ℚ :=
  (get_open_lots_at_date open_lots target_date).foldl
    (portfolio_step price target_date) (0 : ℚ)

/-- Mirrors `EquityCalculator.get_realized_pnl_to_date` (lines 612-625):
SUM(net_pnl_usd) over closed lots with exit date ≤ target (NULL sum → 0). -/
def get_realized_pnl_to_date (closed : List ClosedTradeLot) (target_date : ℤ) : ℚ :=
  ((closed.filter fun c => decide (timestampDay c.exit_timestamp ≤ target_date)).map
      fun c => c.net_pnl_usd).sum

/-- Mirrors `EquityCalculator.get_total_invested_to_date` (lines 627-640):
SUM(value_usd) over BUY fills dated ≤ target. -/
def get_total_invested_to_date (fills : List Fill) (target_date : ℤ) : ℚ :=
  ((fills.filter fun f =>
      decide (f.direction = "BUY" ∧ timestampDay f.block_timestamp ≤ target_date)).map
      fun f => f.value_usd).sum

/-- The equity-point dictionary built per day by
`EquityCalculator.build_daily_equity_curve` (lines 566-572).  These five
fields are the entire record; it carries no other field. -/
structure EquityPoint where
  date : ℤ
  portfolio_value_usd : ℚ
  realized_pnl : ℚ
  unrealized_pnl : ℚ
  total_invested : ℚ
deriving DecidableEq, Repr

/-- One iteration of the date loop of `build_daily_equity_curve`
(lines 561-575). -/
def make_equity_point (open_lots : List (String × TradeLot))
    (price : String → ℤ → Option ℚ) (closed : List ClosedTradeLot)
    (fills : List Fill) (current_date : ℤ) : EquityPoint :=
  let portfolio_value := calculate_portfolio_value_at_date open_lots price current_date
  let realized_pnl := get_realized_pnl_to_date closed current_date
  let total_invested := get_total_invested_to_date fills current_date
  { date := current_date
    portfolio_value_usd := portfolio_value
    realized_pnl := realized_pnl
    unrealized_pnl := portfolio_value - total_invested
    total_invested := total_invested }

/-- Mirrors `EquityCalculator.build_daily_equity_curve` (lines 556-579): one
equity point per day from start to end inclusive. -/
def build_daily_equity_curve (open_lots : List (String × TradeLot))
    (price : String → ℤ → Option ℚ) (closed : List ClosedTradeLot)
    (fills : List Fill) (start_date end_date : ℤ) : List EquityPoint :=
  (List.range (end_date + 1 - start_date).toNat).map
    fun k => make_equity_point open_lots price closed fills (start_date + k)

/-- Did some price lookup performed for this wallet and date return nothing?
This is the condition of the MissingPrice claim (the loop of lines 588-596
looks up each considered token at the estimated block of the date). -/
def missing_price_for_date (open_lots : List (String × TradeLot))
    (price : String → ℤ → Option ℚ) (target_date : ℤ) : Bool :=
  (get_open_lots_at_date open_lots target_date).any
    fun p => (price p.1 (estimate_block_at_date target_date)).isNone

/-! ### Performance metrics and scoring (`PerformanceCalculator`, `ROIScorer`) -/

/-- The performance-metrics dictionary; field set of
`PerformanceCalculator.empty_performance_metrics` /
`calculate_wallet_performance` (lines 752-783, 839-860). -/
structure PerformanceMetrics where
  wallet_address : String
  timeframe_days : ℤ
  total_trades : ℤ
  total_net_pnl_usd : ℚ
  avg_roi_percent : ℚ
  median_roi_percent : ℚ
  winning_trades : ℤ
  losing_trades : ℤ
  win_rate_percent : ℚ
  sharpe_ratio : ℚ
  max_drawdown_percent : ℚ
  avg_hold_days : ℚ
  best_trade_roi : ℚ
  worst_trade_roi : ℚ
  total_volume_usd : ℚ
  avg_position_size_usd : ℚ
  total_gas_cost_usd : ℚ
  gas_as_percent_of_volume : ℚ
deriving DecidableEq, Repr

/-- Mirrors `PerformanceCalculator.empty_performance_metrics`
(lines 839-860): every count and every ratio is 0. -/
def empty_performance_metrics (wallet_address : String) (timeframe_days : ℤ) :
    PerformanceMetrics where
  wallet_address := wallet_address
  timeframe_days := timeframe_days
  total_trades := 0
  total_net_pnl_usd := 0
  avg_roi_percent := 0
  median_roi_percent := 0
  winning_trades := 0
  losing_trades := 0
  win_rate_percent := 0
  sharpe_ratio := 0
  max_drawdown_percent := 0
  avg_hold_days := 0
  best_trade_roi := 0
  worst_trade_roi := 0
  total_volume_usd := 0
  avg_position_size_usd := 0
  total_gas_cost_usd := 0
  gas_as_percent_of_volume := 0

/-- The branch structure of `PerformanceCalculator.calculate_wallet_performance`
(lines 735-744): with no completed trades in the window it returns
`empty_performance_metrics` and never touches the equity curve.  The
populated branch (lines 746-788) aggregates trade statistics together with
Sharpe/drawdown values obtained from the external price collaborator; no
claim evaluates it, so it is abstracted as the `populated` argument. -/
def calculate_wallet_performance (completed_trades : List ClosedTradeLot)
    (populated : PerformanceMetrics) (wallet_address : String)
    (timeframe_days : ℤ) : PerformanceMetrics :=
  if completed_trades = [] then empty_performance_metrics wallet_address timeframe_days
  else populated

/-- Mirrors `ROIScorer.score_roi` (lines 976-983). -/
def score_roi (avg_roi_percent : ℚ) : ℚ :=
  if avg_roi_percent ≤ 0 then 0
  else if 100 ≤ avg_roi_percent then 100
  else min 100 avg_roi_percent

/-- Mirrors `ROIScorer.score_volume` (lines 985-996). -/
def score_volume (total_volume_usd : ℚ) : ℚ :=
  if 1000000 ≤ total_volume_usd then 100
  else if 100000 ≤ total_volume_usd then 80
  else if 10000 ≤ total_volume_usd then 60
  else if 1000 ≤ total_volume_usd then 40
  else 20

/-- Mirrors `ROIScorer.score_consistency` (lines 998-1000):
`min(100, win_rate_percent * 1.25)` — note: no lower clamp. -/
def score_consistency (win_rate_percent : ℚ) : ℚ :=
  min 100 (win_rate_percent * 1.25)

/-- Mirrors `ROIScorer.score_risk` (lines 1002-1007) — note: the drawdown
sub-term has no upper clamp. -/
def score_risk (sharpe_ratio max_drawdown_percent : ℚ) : ℚ :=
  let sharpe_score := min 100 (max 0 (sharpe_ratio * 20))
  let drawdown_score := max 0 (100 - max_drawdown_percent * 2)
  (sharpe_score + drawdown_score) / 2

/-- Mirrors `ROIScorer.score_activity` (lines 1009-1020).  The Python body
divides `total_trades / timeframe_days` with no guard; with
`timeframe_days = 0` that raises `ZeroDivisionError`, modelled as `none`. -/
def score_activity (total_trades timeframe_days : ℤ) : Option ℚ :=
  if timeframe_days = 0 then none
  else
    let trades_per_day : ℚ := (total_trades : ℚ) / (timeframe_days : ℚ)
    some (if 1 ≤ trades_per_day then 100
          else if 0.5 ≤ trades_per_day then 80
          else if 0.1 ≤ trades_per_day then 60
          else 40)

/-- Mirrors `ROIScorer.score_efficiency` (lines 1022-1031). -/
def score_efficiency (gas_percent : ℚ) : ℚ :=
  if gas_percent ≤ 1 then 100
  else if gas_percent ≤ 2 then 80
  else if gas_percent ≤ 5 then 60
  else 40

/-- The weighted composite of `ROIScorer.calculate_wallet_score`
(lines 944-974): weights 0.30/0.20/0.20/0.15/0.10/0.05.  The
`ZeroDivisionError` from `score_activity` propagates, hence `Option`.
The final `round(composite_score, 2)` is display rounding and is omitted. -/
def calculate_wallet_score (metrics : PerformanceMetrics) (timeframe_days : ℤ) :
    Option ℚ :=
  (score_activity metrics.total_trades timeframe_days).map fun activity_score =>
    score_roi metrics.avg_roi_percent * 0.30 +
    score_volume metrics.total_volume_usd * 0.20 +
    score_consistency metrics.win_rate_percent * 0.20 +
    score_risk metrics.sharpe_ratio metrics.max_drawdown_percent * 0.15 +
    activity_score * 0.10 +
    score_efficiency metrics.gas_as_percent_of_volume * 0.05

/-! ### Concrete fills for the specified scenarios -/

/-- The scenario BUY: 100 units at 100 USD each (total value 10000 USD),
gas 50 USD, at timestamp 0. -/
def sampleBuy : Fill where
  wallet_address := "0xw"
  token_address := "0xt"
  token_symbol := "TOK"
  token_decimals := 18
  direction := "BUY"
  amount := 100
  price_usd := 100
  value_usd := 10000
  block_number := 1
  block_timestamp := 0
  transaction_hash := "0xa"
  log_index := 0
  gas_cost_usd := 50
  counterparty := "0xc"

/-- The scenario SELL: 50 units at 150 USD each, gas 45 USD, ten days
after the buy. -/
def sampleSell : Fill where
  wallet_address := "0xw"
  token_address := "0xt"
  token_symbol := "TOK"
  token_decimals := 18
  direction := "SELL"
  amount := 50
  price_usd := 150
  value_usd := 7500
  block_number := 2
  block_timestamp := 864000
  transaction_hash := "0xb"
  log_index := 0
  gas_cost_usd := 45
  counterparty := "0xd"

/-- The same SELL placed two days after the buy (for the as-of-date
portfolio valuation scenario). -/
def sellAtDayTwo : Fill :=
  { sampleSell with block_timestamp := 2 * 86400 }

/-- The oversell scenario SELL: 100 units with no matching open lots. -/
def oversellFill : Fill :=
  { sampleSell with amount := 100 }

/-- A second BUY of the same token one day later (FIFO scenario). -/
def laterBuy : Fill :=
  { sampleBuy with block_timestamp := 86400, transaction_hash := "0xa2" }

/-- A SELL that covers the first buy and part of the second (FIFO scenario). -/
def fifoSell : Fill :=
  { sampleSell with amount := 150 }

/-! ### Tracker invariant (value conservation) -/

/-- The (tx hash, log index) keys of the entry fills of a wallet's open
lots, in position order. -/
def lotKeys (lots : List (String × TradeLot)) : List (String × ℕ) :=
  lots.map fun p => fillKey p.2.entry_fill

/-- Conservation invariant of the lot tracker: entry-fill keys are
pairwise distinct across open lots; every open lot has
`0 ≤ remaining ≤ entry` and the closed lots generated from it sum to
`entry - remaining`; and every closed lot references the entry fill of
some open lot (fully consumed lots stay in the list with remaining 0 —
the code never removes them). -/
def TrackerInv (st : LotTrackerState) : Prop :=
  (lotKeys st.open_lots).Nodup ∧
  (∀ (i : ℕ) (t : String) (lot : TradeLot), st.open_lots[i]? = some (t, lot) →
      0 ≤ lot.remaining_amount ∧ lot.remaining_amount ≤ lot.entry_amount ∧
      sumTradeFor st.closed_lots lot.entry_fill
        = lot.entry_amount - lot.remaining_amount) ∧
  (∀ c ∈ st.closed_lots, ∃ (i : ℕ) (t : String) (lot : TradeLot),
      st.open_lots[i]? = some (t, lot) ∧ c.entry_fill = lot.entry_fill)

/-! ### Helper lemmas -/

lemma sell_ne_buy : ¬ ("SELL" = "BUY") := by decide

lemma score_roi_bounds (x : ℚ) : 0 ≤ score_roi x ∧ score_roi x ≤ 100 := by
  unfold score_roi
  split_ifs with h1 h2
  · exact ⟨le_refl 0, by norm_num⟩
  · exact ⟨by norm_num, le_refl 100⟩
  · exact ⟨le_min (by norm_num) (le_of_lt (lt_of_not_le h1)), min_le_left _ _⟩

lemma score_volume_bounds (x : ℚ) : 0 ≤ score_volume x ∧ score_volume x ≤ 100 := by
  unfold score_volume
  split_ifs <;> norm_num

lemma score_consistency_bounds (x : ℚ) (hx : 0 ≤ x) :
    0 ≤ score_consistency x ∧ score_consistency x ≤ 100 := by
  unfold score_consistency
  exact ⟨le_min (by norm_num) (by nlinarith), min_le_left _ _⟩

lemma score_risk_bounds (s d : ℚ) (hd : 0 ≤ d) :
    0 ≤ score_risk s d ∧ score_risk s d ≤ 100 := by
  unfold score_risk
  have h1 : (0 : ℚ) ≤ min 100 (max 0 (s * 20)) := le_min (by norm_num) (le_max_left _ _)
  have h2 : min 100 (max 0 (s * 20)) ≤ 100 := min_le_left _ _
  have h3 : (0 : ℚ) ≤ max 0 (100 - d * 2) := le_max_left _ _
  have h4 : max 0 (100 - d * 2) ≤ 100 := max_le (by norm_num) (by nlinarith)
  constructor <;> [positivity; linarith]

lemma score_activity_spec (t d : ℤ) (hd : d ≠ 0) :
    ∃ a, score_activity t d = some a ∧ 0 ≤ a ∧ a ≤ 100 := by
  unfold score_activity
  rw [if_neg hd]
  refine ⟨_, rfl, ?_⟩
  split_ifs <;> norm_num

lemma score_efficiency_bounds (x : ℚ) : 0 ≤ score_efficiency x ∧ score_efficiency x ≤ 100 := by
  unfold score_efficiency
  split_ifs <;> norm_num

/-! ### C1 — scaling of the emitted Closed Trade Lot -/

/-- C1 counterexample: on the spec's own scenario (buy 100 units for 10000
USD with 50 USD gas, sell 50 units at 150 USD with 45 USD gas) the code
emits `exit_gas_cost_usd = 22.5` and `net_pnl_usd = 2452.5`, not the
claimed 45 and 2430: `process_sell_fill` scales the exit gas cost by
`sell_ratio = consumed / lot.entry_amount` (= 1/2), not by
`consumed / sell_fill.amount` (= 1). -/
theorem c1_scenario_counterexample :
    ((processFills [sampleBuy, sampleSell]).closed_lots.map fun c =>
        (c.exit_gas_cost_usd, c.net_pnl_usd)) = [((45 : ℚ)/2, (4905 : ℚ)/2)] ∧
    ¬ ((45 : ℚ)/2 = 45 ∧ (4905 : ℚ)/2 = 2430) := by
  constructor
  · simp only [processFills, List.foldl_cons, List.foldl_nil, process_fill,
      process_sell_fill, tokenLots, tokenLotsFrom, sortLotsByEntry, sellLoop,
      applyUpdates, setRemaining, mkOpenLot, mkClosedLot, sampleBuy, sampleSell,
      initialTracker, List.insertionSort, List.orderedInsert, min_def,
      if_neg sell_ne_buy]
    norm_num
  · norm_num

/-- C1 amended: the scenario emits exactly one Closed Trade Lot with
trade_amount 50, entry value 5000 and entry gas 25 (scaled by
r = consumed/entry_amount = 1/2), exit value 7500 (consumed × price), but
exit gas 22.5 — scaled by the same r, not by consumed/sell_fill.amount —
hence gross P&L 2500 and net P&L 2452.5. -/
theorem c1_scenario_amended :
    ((processFills [sampleBuy, sampleSell]).closed_lots.map fun c =>
        (c.trade_amount, c.entry_value_usd, c.entry_gas_cost_usd, c.exit_value_usd,
         c.exit_gas_cost_usd, c.gross_pnl_usd, c.net_pnl_usd))
      = [(50, 5000, 25, 7500, (45 : ℚ)/2, 2500, (4905 : ℚ)/2)] := by
  simp only [processFills, List.foldl_cons, List.foldl_nil, process_fill,
    process_sell_fill, tokenLots, tokenLotsFrom, sortLotsByEntry, sellLoop,
    applyUpdates, setRemaining, mkOpenLot, mkClosedLot, sampleBuy, sampleSell,
    initialTracker, List.insertionSort, List.orderedInsert, min_def,
    if_neg sell_ne_buy]
  norm_num

/-! ### C2 — boundedness of the sub-scores and the composite -/

/-- C2 counterexample: the claim quantifies over any real-valued metrics,
but `score_consistency` has no lower clamp and the drawdown term of
`score_risk` has no upper clamp: a win rate of -80 scores -100, and
(sharpe 10, drawdown -50) scores 150. -/
theorem c2_unclamped_counterexample :
    score_consistency (-80) = -100 ∧ score_risk 10 (-50) = 150 ∧
    score_consistency (-80) < 0 ∧ 100 < score_risk 10 (-50) := by
  norm_num [score_consistency, score_risk, min_def, max_def]

/-- C2 amended: whenever the win rate and the max drawdown are nonnegative
(which holds for every metrics record the pipeline itself produces) and the
timeframe is nonzero, each of the six sub-scores lies in [0,100] and the
weighted composite of `calculate_wallet_score` lies in [0,100]. -/
theorem c2_scores_bounded (m : PerformanceMetrics) (d : ℤ)
    (hw : 0 ≤ m.win_rate_percent) (hd : 0 ≤ m.max_drawdown_percent) (ht : d ≠ 0) :
    (0 ≤ score_roi m.avg_roi_percent ∧ score_roi m.avg_roi_percent ≤ 100) ∧
    (0 ≤ score_volume m.total_volume_usd ∧ score_volume m.total_volume_usd ≤ 100) ∧
    (0 ≤ score_consistency m.win_rate_percent ∧
       score_consistency m.win_rate_percent ≤ 100) ∧
    (0 ≤ score_risk m.sharpe_ratio m.max_drawdown_percent ∧
       score_risk m.sharpe_ratio m.max_drawdown_percent ≤ 100) ∧
    (0 ≤ (score_activity m.total_trades d).getD 0 ∧
       (score_activity m.total_trades d).getD 0 ≤ 100) ∧
    (0 ≤ score_efficiency m.gas_as_percent_of_volume ∧
       score_efficiency m.gas_as_percent_of_volume ≤ 100) ∧
    (0 ≤ (calculate_wallet_score m d).getD 0 ∧
       (calculate_wallet_score m d).getD 0 ≤ 100) := by
  obtain ⟨a, ha, ha0, ha100⟩ := score_activity_spec m.total_trades d ht
  obtain ⟨r0, r100⟩ := score_roi_bounds m.avg_roi_percent
  obtain ⟨v0, v100⟩ := score_volume_bounds m.total_volume_usd
  obtain ⟨c0, c100⟩ := score_consistency_bounds m.win_rate_percent hw
  obtain ⟨k0, k100⟩ := score_risk_bounds m.sharpe_ratio m.max_drawdown_percent hd
  obtain ⟨e0, e100⟩ := score_efficiency_bounds m.gas_as_percent_of_volume
  refine ⟨⟨r0, r100⟩, ⟨v0, v100⟩, ⟨c0, c100⟩, ⟨k0, k100⟩, ?_, ⟨e0, e100⟩, ?_⟩
  · rw [ha]
    exact ⟨ha0, ha100⟩
  · unfold calculate_wallet_score
    rw [ha]
    simp only [Option.map_some', Option.getD_some]
    constructor <;> nlinarith

/-- C2 witness: the bound theorem applied to the empty metrics record at a
90-day window. -/
theorem c2_scores_bounded_witness :
    (0 ≤ score_roi (empty_performance_metrics "0xw" 90).avg_roi_percent ∧
       score_roi (empty_performance_metrics "0xw" 90).avg_roi_percent ≤ 100) ∧
    (0 ≤ score_volume (empty_performance_metrics "0xw" 90).total_volume_usd ∧
       score_volume (empty_performance_metrics "0xw" 90).total_volume_usd ≤ 100) ∧
    (0 ≤ score_consistency (empty_performance_metrics "0xw" 90).win_rate_percent ∧
       score_consistency (empty_performance_metrics "0xw" 90).win_rate_percent ≤ 100) ∧
    (0 ≤ score_risk (empty_performance_metrics "0xw" 90).sharpe_ratio
           (empty_performance_metrics "0xw" 90).max_drawdown_percent ∧
       score_risk (empty_performance_metrics "0xw" 90).sharpe_ratio
           (empty_performance_metrics "0xw" 90).max_drawdown_percent ≤ 100) ∧
    (0 ≤ (score_activity (empty_performance_metrics "0xw" 90).total_trades 90).getD 0 ∧
       (score_activity (empty_performance_metrics "0xw" 90).total_trades 90).getD 0 ≤ 100) ∧
    (0 ≤ score_efficiency (empty_performance_metrics "0xw" 90).gas_as_percent_of_volume ∧
       score_efficiency (empty_performance_metrics "0xw" 90).gas_as_percent_of_volume ≤ 100) ∧
    (0 ≤ (calculate_wallet_score (empty_performance_metrics "0xw" 90) 90).getD 0 ∧
       (calculate_wallet_score (empty_performance_metrics "0xw" 90) 90).getD 0 ≤ 100) :=
  c2_scores_bounded (empty_performance_metrics "0xw" 90) 90
    (by decide) (by decide) (by decide)

/-! ### C3 — empty history -/

/-- C3 counterexample: scoring the all-zero metrics record over the default
90-day window returns a composite of 20.5 (the step-function floors:
volume 20, risk 50, activity 40, efficiency 100), not 0. -/
theorem c3_empty_composite_counterexample :
    calculate_wallet_score (empty_performance_metrics "0xw" 90) 90 = some ((41 : ℚ)/2) ∧
    ((41 : ℚ)/2) ≠ 0 := by
  constructor
  · norm_num [calculate_wallet_score, score_activity, score_roi, score_volume,
      score_consistency, score_risk, score_efficiency, empty_performance_metrics,
      min_def, max_def]
  · norm_num

/-- C3 amended: with zero closed trade lots in the window,
`calculate_wallet_performance` returns the well-defined all-zero metrics
record (every count 0, every ratio 0) and `calculate_wallet_score` on it
returns `some 20.5` — a defined value, no exception, but not 0. -/
theorem c3_empty_metrics_amended (wallet : String) (populated : PerformanceMetrics) :
    calculate_wallet_performance [] populated wallet 90 =
      empty_performance_metrics wallet 90 ∧
    (empty_performance_metrics wallet 90).total_trades = 0 ∧
    (empty_performance_metrics wallet 90).winning_trades = 0 ∧
    (empty_performance_metrics wallet 90).losing_trades = 0 ∧
    (empty_performance_metrics wallet 90).total_net_pnl_usd = 0 ∧
    (empty_performance_metrics wallet 90).avg_roi_percent = 0 ∧
    (empty_performance_metrics wallet 90).median_roi_percent = 0 ∧
    (empty_performance_metrics wallet 90).win_rate_percent = 0 ∧
    (empty_performance_metrics wallet 90).sharpe_ratio = 0 ∧
    (empty_performance_metrics wallet 90).max_drawdown_percent = 0 ∧
    (empty_performance_metrics wallet 90).avg_hold_days = 0 ∧
    (empty_performance_metrics wallet 90).total_volume_usd = 0 ∧
    (empty_performance_metrics wallet 90).gas_as_percent_of_volume = 0 ∧
    calculate_wallet_score (empty_performance_metrics wallet 90) 90 =
      some ((41 : ℚ)/2) := by
  refine ⟨by simp [calculate_wallet_performance], rfl, rfl, rfl, rfl, rfl, rfl,
    rfl, rfl, rfl, rfl, rfl, rfl, ?_⟩
  norm_num [calculate_wallet_score, score_activity, score_roi, score_volume,
    score_consistency, score_risk, score_efficiency, empty_performance_metrics,
    min_def, max_def]

/-! ### C6 — idempotence of fill processing -/

/-- C6: feeding the same BUY fill twice through `process_fill` duplicates
the open lot — the tracker performs no deduplication on the
(tx hash, log index) key even though the fills table declares it unique
(INSERT OR IGNORE on `idx_fills_unique`); the resulting state differs from
processing the fill once. -/
theorem c6_duplicate_fill_not_idempotent :
    processFills [sampleBuy, sampleBuy] ≠ processFills [sampleBuy] ∧
    (processFills [sampleBuy, sampleBuy]).open_lots.length = 2 ∧
    (processFills [sampleBuy]).open_lots.length = 1 := by
  decide

/-! ### C9 — as-of-date portfolio valuation -/

/-- C9: after buying 100 units at day 0 and selling 50 at day 2, valuing
the portfolio at day 1 (price 2 USD) yields 100 USD — the live, already
mutated remaining amount (50 units) — instead of the 200 USD the claim
requires from the as-of-day-1 holding of 100 units.
`get_open_lots_at_date` filters the tracker's current lot list by entry
date only; its own comment concedes the state would need reconstruction. -/
theorem c9_live_state_not_asof :
    calculate_portfolio_value_at_date (processFills [sampleBuy, sellAtDayTwo]).open_lots
        (fun _ _ => some 2) 1 = 100 ∧
    (100 : ℚ) ≠ 2 * 100 := by
  constructor
  · simp only [processFills, List.foldl_cons, List.foldl_nil, process_fill,
      process_sell_fill, tokenLots, tokenLotsFrom, sortLotsByEntry, sellLoop,
      applyUpdates, setRemaining, mkOpenLot, mkClosedLot, sampleBuy, sampleSell,
      sellAtDayTwo, initialTracker, List.insertionSort, List.orderedInsert, min_def,
      if_neg sell_ne_buy, calculate_portfolio_value_at_date, portfolio_step,
      get_open_lots_at_date, timestampDay, estimate_block_at_date, List.filter]
    norm_num [portfolio_step, Int.fdiv]
  · norm_num

/-! ### C10 — zero-day window -/

/-- C10: `score_activity` divides by `timeframe_days` with no guard, so a
zero-day window always raises ZeroDivisionError (modelled `none`) — for any
trade count and any metrics record — and `calculate_wallet_score`
propagates it instead of returning a score. -/
theorem c10_zero_timeframe_raises (m : PerformanceMetrics) (t : ℤ) :
    score_activity t 0 = none ∧ calculate_wallet_score m 0 = none := by
  constructor
  · simp [score_activity]
  · simp [calculate_wallet_score, score_activity]

/-! ### C8 — missing price handling -/

lemma get_open_lots_at_date_filter (q : String × TradeLot → Bool)
    (lots : List (String × TradeLot)) (d : ℤ) :
    get_open_lots_at_date (lots.filter q) d = (get_open_lots_at_date lots d).filter q := by
  unfold get_open_lots_at_date
  exact List.filter_comm _ q lots

lemma portfolio_foldl_skip_token (price : String → ℤ → Option ℚ) (T : String) (d : ℤ)
    (hT : price T (estimate_block_at_date d) = none) :
    ∀ (L : List (String × TradeLot)) (acc : ℚ),
      L.foldl (portfolio_step price d) acc
        = (L.filter fun p => decide (p.1 ≠ T)).foldl (portfolio_step price d) acc := by
  intro L
  induction L with
  | nil => intro acc; rfl
  | cons p L ih =>
      intro acc
      by_cases hp : p.1 = T
      · have hstep : portfolio_step price d acc p = acc := by
          unfold portfolio_step
          rw [hp, hT]
        have hfil : List.filter (fun q => decide (q.1 ≠ T)) (p :: L)
            = List.filter (fun q => decide (q.1 ≠ T)) L := by
          simp [List.filter_cons, hp]
        rw [List.foldl_cons, hstep, hfil]
        exact ih acc
      · have hfil : List.filter (fun q => decide (q.1 ≠ T)) (p :: L)
            = p :: List.filter (fun q => decide (q.1 ≠ T)) L := by
          simp [List.filter_cons, hp]
        rw [List.foldl_cons, hfil, List.foldl_cons]
        exact ih _

/-- C8 amended (the half of the claim that holds): when every price lookup
for token T returns nothing, the portfolio value computed by
`calculate_portfolio_value_at_date` is exactly the value computed with all
of T's lots removed — the missing token's contribution is treated as
zero. -/
theorem c8_missing_price_zero_contribution (lots : List (String × TradeLot))
    (price : String → ℤ → Option ℚ) (T : String) (d : ℤ)
    (hT : ∀ b, price T b = none) :
    calculate_portfolio_value_at_date lots price d =
      calculate_portfolio_value_at_date (lots.filter fun p => decide (p.1 ≠ T))
        price d := by
  unfold calculate_portfolio_value_at_date
  rw [get_open_lots_at_date_filter]
  exact portfolio_foldl_skip_token price T d (hT _) _ _

/-- C8 witness: the zero-contribution theorem instantiated at one lot whose
token has no price. -/
theorem c8_missing_price_zero_contribution_witness :
    calculate_portfolio_value_at_date [("0xt", mkOpenLot sampleBuy)]
        (fun _ _ => none) 1 =
      calculate_portfolio_value_at_date
        ([("0xt", mkOpenLot sampleBuy)].filter fun p => decide (p.1 ≠ "0xt"))
        (fun _ _ => none) 1 :=
  c8_missing_price_zero_contribution [("0xt", mkOpenLot sampleBuy)]
    (fun _ _ => none) "0xt" 1 (fun _ => rfl)

/-- C8 counterexample (the half of the claim that fails): the Equity Point
record has no partial marker.  A wallet whose only token has no price at
all produces an Equity Point identical to one computed with every price
present — the two are indistinguishable, so no flag distinguishes a partial
point from a complete one. -/
theorem c8_no_partial_flag_counterexample :
    missing_price_for_date [("0xt", mkOpenLot sampleBuy)] (fun _ _ => none) 1 = true ∧
    missing_price_for_date [] (fun _ _ => some 5) 1 = false ∧
    make_equity_point [("0xt", mkOpenLot sampleBuy)] (fun _ _ => none) [] [] 1 =
      make_equity_point [] (fun _ _ => some 5) [] [] 1 := by
  refine ⟨by decide, by decide, ?_⟩
  norm_num [make_equity_point, calculate_portfolio_value_at_date, portfolio_step,
    get_open_lots_at_date, get_realized_pnl_to_date, get_total_invested_to_date,
    timestampDay, estimate_block_at_date, List.filter, Int.fdiv, mkOpenLot, sampleBuy]

/-! ### Lot-matcher structural lemmas -/

lemma tokenLotsFrom_mem_pos (token : String) :
    ∀ (l : List (String × TradeLot)) (n : ℕ), ∀ p ∈ tokenLotsFrom token n l,
      0 < p.2.remaining_amount := by
  intro l
  induction l with
  | nil => intro n p hp; simp [tokenLotsFrom] at hp
  | cons q rest ih =>
      intro n p hp
      obtain ⟨t, lot⟩ := q
      by_cases hc : t = token ∧ 0 < lot.remaining_amount
      · rw [tokenLotsFrom, if_pos hc] at hp
        rcases List.mem_cons.mp hp with rfl | hp
        · exact hc.2
        · exact ih (n + 1) p hp
      · rw [tokenLotsFrom, if_neg hc] at hp
        exact ih (n + 1) p hp

lemma tokenLotsFrom_mem_get (token : String) :
    ∀ (l : List (String × TradeLot)) (n : ℕ), ∀ p ∈ tokenLotsFrom token n l,
      ∃ j : ℕ, p.1 = n + j ∧ l[j]? = some (token, p.2) := by
  intro l
  induction l with
  | nil => intro n p hp; simp [tokenLotsFrom] at hp
  | cons q rest ih =>
      intro n p hp
      obtain ⟨t, lot⟩ := q
      by_cases hc : t = token ∧ 0 < lot.remaining_amount
      · rw [tokenLotsFrom, if_pos hc] at hp
        rcases List.mem_cons.mp hp with rfl | hp
        · exact ⟨0, by simp, by simp [hc.1]⟩
        · obtain ⟨j, h1, h2⟩ := ih (n + 1) p hp
          exact ⟨j + 1, by omega, by simpa using h2⟩
      · rw [tokenLotsFrom, if_neg hc] at hp
        obtain ⟨j, h1, h2⟩ := ih (n + 1) p hp
        exact ⟨j + 1, by omega, by simpa using h2⟩

lemma tokenLotsFrom_map_remaining (token : String) :
    ∀ (l : List (String × TradeLot)) (n : ℕ),
      (tokenLotsFrom token n l).map (fun p => p.2.remaining_amount)
        = (l.filter fun p => decide (p.1 = token ∧ 0 < p.2.remaining_amount)).map
            (fun p => p.2.remaining_amount) := by
  intro l
  induction l with
  | nil => intro n; rfl
  | cons q rest ih =>
      intro n
      obtain ⟨t, lot⟩ := q
      simp only [List.filter_cons, decide_eq_true_eq]
      by_cases hc : t = token ∧ 0 < lot.remaining_amount
      · rw [tokenLotsFrom, if_pos hc, if_pos hc]
        simp only [List.map_cons]
        rw [ih (n + 1)]
      · rw [tokenLotsFrom, if_neg hc, if_neg hc]
        exact ih (n + 1)

lemma sum_filter_pos_remaining (token : String) (lots : List (String × TradeLot))
    (h : ∀ p ∈ lots, 0 ≤ p.2.remaining_amount) :
    ((lots.filter fun p => decide (p.1 = token ∧ 0 < p.2.remaining_amount)).map
        (fun p => p.2.remaining_amount)).sum = totalRemainingFor lots token := by
  induction lots with
  | nil => rfl
  | cons q rest ih =>
      have hq0 : 0 ≤ q.2.remaining_amount := h q (List.mem_cons_self _ _)
      have hrest : ∀ p ∈ rest, 0 ≤ p.2.remaining_amount :=
        fun p hp => h p (List.mem_cons_of_mem _ hp)
      unfold totalRemainingFor
      simp only [List.filter_cons, decide_eq_true_eq]
      by_cases h1 : q.1 = token
      · by_cases h2 : 0 < q.2.remaining_amount
        · rw [if_pos ⟨h1, h2⟩, if_pos h1]
          simp only [List.map_cons, List.sum_cons]
          rw [ih hrest]
          rfl
        · have hz : q.2.remaining_amount = 0 := le_antisymm (not_lt.mp h2) hq0
          rw [if_neg (by intro hand; exact h2 hand.2), if_pos h1]
          simp only [List.map_cons, List.sum_cons, hz, zero_add]
          rw [ih hrest]
          rfl
      · rw [if_neg (by intro hand; exact h1 hand.1), if_neg h1]
        rw [ih hrest]
        rfl

lemma sortLotsByEntry_perm (l : List (ℕ × TradeLot)) :
    List.Perm (sortLotsByEntry l) l :=
  List.perm_insertionSort _ l

lemma setRemaining_map (f : String × TradeLot → β)
    (hf : ∀ t (lot : TradeLot) v, f (t, { lot with remaining_amount := v }) = f (t, lot)) :
    ∀ (l : List (String × TradeLot)) (i : ℕ) (v : ℚ),
      (setRemaining l i v).map f = l.map f := by
  intro l
  induction l with
  | nil => intro i v; rfl
  | cons p rest ih =>
      intro i v
      cases i with
      | zero =>
          simp only [setRemaining, List.map_cons]
          rw [hf p.1 p.2 v]
      | succ i =>
          simp only [setRemaining, List.map_cons]
          rw [ih i v]

lemma applyUpdates_map (f : String × TradeLot → β)
    (hf : ∀ t (lot : TradeLot) v, f (t, { lot with remaining_amount := v }) = f (t, lot)) :
    ∀ (us : List (ℕ × ℚ)) (l : List (String × TradeLot)),
      (applyUpdates l us).map f = l.map f := by
  intro us
  induction us with
  | nil => intro l; rfl
  | cons u us ih =>
      intro l
      have : applyUpdates l (u :: us) = applyUpdates (setRemaining l u.1 u.2) us := rfl
      rw [this, ih, setRemaining_map f hf]

lemma sellLoop_closed_entry_fill (sell : Fill) :
    ∀ (tl : List (ℕ × TradeLot)) (r : ℚ), ∀ c ∈ (sellLoop sell tl r).1,
      ∃ p ∈ tl, c.entry_fill = p.2.entry_fill := by
  intro tl
  induction tl with
  | nil => intro r c hc; simp [sellLoop] at hc
  | cons q rest ih =>
      intro r c hc
      obtain ⟨i, lot⟩ := q
      by_cases h : r ≤ 0
      · rw [sellLoop, if_pos h] at hc
        simp at hc
      · rw [sellLoop, if_neg h] at hc
        rcases List.mem_cons.mp hc with rfl | hc
        · exact ⟨(i, lot), List.mem_cons_self _ _, rfl⟩
        · obtain ⟨p, hp, he⟩ := ih _ c hc
          exact ⟨p, List.mem_cons_of_mem _ hp, he⟩

lemma sellLoop_consumes_all (sell : Fill) :
    ∀ (tl : List (ℕ × TradeLot)) (r : ℚ),
      (∀ p ∈ tl, 0 < p.2.remaining_amount) →
      (tl.map fun p => p.2.remaining_amount).sum ≤ r →
      ((sellLoop sell tl r).1.map fun c => c.trade_amount)
          = tl.map (fun p => p.2.remaining_amount) ∧
      (sellLoop sell tl r).2.2 = r - (tl.map fun p => p.2.remaining_amount).sum := by
  intro tl
  induction tl with
  | nil =>
      intro r hpos hle
      simp [sellLoop]
  | cons q rest ih =>
      intro r hpos hle
      obtain ⟨i, lot⟩ := q
      have hlot : 0 < lot.remaining_amount := hpos (i, lot) (List.mem_cons_self _ _)
      have hrestpos : ∀ p ∈ rest, 0 < p.2.remaining_amount :=
        fun p hp => hpos p (List.mem_cons_of_mem _ hp)
      have hsum : lot.remaining_amount + (rest.map fun p => p.2.remaining_amount).sum ≤ r := by
        simpa using hle
      have hrest0 : 0 ≤ (rest.map fun p => p.2.remaining_amount).sum := by
        apply List.sum_nonneg
        intro x hx
        obtain ⟨p, hp, rfl⟩ := List.mem_map.mp hx
        exact (hrestpos p hp).le
      have hr : ¬ r ≤ 0 := by linarith
      have hmin : min r lot.remaining_amount = lot.remaining_amount :=
        min_eq_right (by linarith)
      obtain ⟨ih1, ih2⟩ := ih (r - lot.remaining_amount) hrestpos (by linarith)
      rw [sellLoop, if_neg hr]
      simp only [hmin, List.map_cons]
      refine ⟨?_, ?_⟩
      · rw [ih1]
        rfl
      · rw [ih2]
        simp only [List.map_cons, List.sum_cons]
        ring

/-! ### C7 — oversell handling -/

/-- C7: when a SELL's amount is at least the wallet's total remaining for
that token (all remaining amounts nonnegative, as they are for every
tracker-produced lot), `process_sell_fill` (1) emits closed lots whose
trade amounts sum to exactly the matched total — never more; (2) reports
the unmatched remainder `sell.amount - total` as the oversell (the line-516
warning fires iff it is positive); (3) keeps every lot's token and entry
fill unchanged; and (4) fabricates nothing: every emitted lot's entry fill
is the entry fill of an existing open lot. -/
theorem c7_oversell_matched_portion_only (sell : Fill) (lots : List (String × TradeLot))
    (hrem : ∀ p ∈ lots, 0 ≤ p.2.remaining_amount)
    (hov : totalRemainingFor lots sell.token_address ≤ sell.amount) :
    ((process_sell_fill sell lots).closed_lots.map fun c => c.trade_amount).sum
        = totalRemainingFor lots sell.token_address ∧
    (process_sell_fill sell lots).oversell
        = sell.amount - totalRemainingFor lots sell.token_address ∧
    ((process_sell_fill sell lots).wallet_lots.map fun p => (p.1, p.2.entry_fill))
        = lots.map (fun p => (p.1, p.2.entry_fill)) ∧
    ∀ c ∈ (process_sell_fill sell lots).closed_lots,
      ∃ p ∈ lots, c.entry_fill = p.2.entry_fill := by
  have hperm : List.Perm (sortLotsByEntry (tokenLots lots sell.token_address))
      (tokenLots lots sell.token_address) := sortLotsByEntry_perm _
  have htl_pos : ∀ p ∈ sortLotsByEntry (tokenLots lots sell.token_address),
      0 < p.2.remaining_amount := by
    intro p hp
    exact tokenLotsFrom_mem_pos sell.token_address lots 0 p (hperm.mem_iff.mp hp)
  have hsum_tl : ((sortLotsByEntry (tokenLots lots sell.token_address)).map
      (fun p => p.2.remaining_amount)).sum = totalRemainingFor lots sell.token_address := by
    rw [(hperm.map (fun p => p.2.remaining_amount)).sum_eq]
    rw [tokenLots, tokenLotsFrom_map_remaining]
    exact sum_filter_pos_remaining sell.token_address lots hrem
  obtain ⟨hmap, hrem'⟩ := sellLoop_consumes_all sell
    (sortLotsByEntry (tokenLots lots sell.token_address)) sell.amount htl_pos
    (by rw [hsum_tl]; exact hov)
  refine ⟨?_, ?_, ?_, ?_⟩
  · show ((sellLoop sell _ _).1.map fun c => c.trade_amount).sum = _
    rw [hmap, hsum_tl]
  · show (sellLoop sell _ _).2.2 = _
    rw [hrem', hsum_tl]
  · exact applyUpdates_map (fun p => (p.1, p.2.entry_fill)) (fun t lot v => rfl) _ _
  · intro c hc
    obtain ⟨p, hp, he⟩ := sellLoop_closed_entry_fill sell _ _ c hc
    obtain ⟨j, _, hget⟩ := tokenLotsFrom_mem_get sell.token_address lots 0 p
      (hperm.mem_iff.mp hp)
    exact ⟨(sell.token_address, p.2), List.getElem?_mem hget, he⟩

/-- C7 witness: the specified scenario — a SELL of 100 units against zero
matching open lots emits no closed lots, leaves the lot list unchanged and
reports an oversell of 100. -/
theorem c7_oversell_witness :
    (process_sell_fill oversellFill []).closed_lots = [] ∧
    (process_sell_fill oversellFill []).oversell = 100 ∧
    (process_sell_fill oversellFill []).wallet_lots = [] := by
  have h := c7_oversell_matched_portion_only oversellFill []
    (by intro p hp; simp at hp) (by norm_num [totalRemainingFor, oversellFill, sampleSell])
  refine ⟨rfl, ?_, rfl⟩
  have h2 := h.2.1
  rw [h2]
  norm_num [totalRemainingFor, oversellFill, sampleSell]

/-! ### C4 — FIFO ordering -/

/-- C4: for two BUY fills of the same token with strictly increasing entry
timestamps followed by a partially covering SELL, `process_sell_fill`
consumes the older lot first: if any Closed Trade Lot references B2, then
the emitted list is exactly [lot-from-B1, lot-from-B2] in that order, the
B1 lot was consumed in full (`trade_amount = B1.amount`), and B1's
remaining amount has been reduced to zero. -/
theorem c4_fifo_oldest_first (B1 B2 S : Fill)
    (hd1 : B1.direction = "BUY") (hd2 : B2.direction = "BUY")
    (hd3 : S.direction = "SELL")
    (ht2 : B2.token_address = B1.token_address)
    (ht3 : S.token_address = B1.token_address)
    (hts : B1.block_timestamp < B2.block_timestamp)
    (ha1 : 0 < B1.amount) (ha2 : 0 < B2.amount)
    (hs0 : 0 < S.amount) (hslt : S.amount < B1.amount + B2.amount)
    (hex : ∃ c ∈ (processFills [B1, B2, S]).closed_lots, c.entry_fill = B2) :
    ((processFills [B1, B2, S]).closed_lots.map fun c => c.entry_fill) = [B1, B2] ∧
    ((processFills [B1, B2, S]).closed_lots.map fun c => c.trade_amount).head?
        = some B1.amount ∧
    ((processFills [B1, B2, S]).open_lots.map fun p => p.2.remaining_amount).head?
        = some 0 := by
  have hne : B1 ≠ B2 := by
    intro h
    rw [h] at hts
    exact lt_irrefl _ hts
  have htl : tokenLots [(B1.token_address, mkOpenLot B1), (B2.token_address, mkOpenLot B2)]
      S.token_address = [(0, mkOpenLot B1), (1, mkOpenLot B2)] := by
    unfold tokenLots
    rw [tokenLotsFrom, if_pos ⟨ht3.symm, ha1⟩, tokenLotsFrom,
      if_pos ⟨by rw [ht2, ht3], ha2⟩, tokenLotsFrom]
  have hsort : sortLotsByEntry [(0, mkOpenLot B1), (1, mkOpenLot B2)]
      = [(0, mkOpenLot B1), (1, mkOpenLot B2)] := by
    show List.orderedInsert
        (fun a b : ℕ × TradeLot => a.2.entry_timestamp ≤ b.2.entry_timestamp)
        (0, mkOpenLot B1)
        (List.orderedInsert
          (fun a b : ℕ × TradeLot => a.2.entry_timestamp ≤ b.2.entry_timestamp)
          (1, mkOpenLot B2) []) = _
    rw [List.orderedInsert_nil, List.orderedInsert_of_le
      (fun a b : ℕ × TradeLot => a.2.entry_timestamp ≤ b.2.entry_timestamp) _
      (le_of_lt hts :
        ((0, mkOpenLot B1) : ℕ × TradeLot).2.entry_timestamp
          ≤ ((1, mkOpenLot B2) : ℕ × TradeLot).2.entry_timestamp)]
  have s1 : process_fill initialTracker B1
      = { open_lots := [(B1.token_address, mkOpenLot B1)], closed_lots := [] } := by
    unfold process_fill initialTracker
    rw [if_pos hd1]
    rfl
  have s2 : process_fill
      ({ open_lots := [(B1.token_address, mkOpenLot B1)],
         closed_lots := [] } : LotTrackerState) B2
      = { open_lots := [(B1.token_address, mkOpenLot B1), (B2.token_address, mkOpenLot B2)],
          closed_lots := [] } := by
    unfold process_fill
    rw [if_pos hd2]
    rfl
  have hps : process_sell_fill S
      [(B1.token_address, mkOpenLot B1), (B2.token_address, mkOpenLot B2)]
      = { wallet_lots := applyUpdates
            [(B1.token_address, mkOpenLot B1), (B2.token_address, mkOpenLot B2)]
            (sellLoop S [(0, mkOpenLot B1), (1, mkOpenLot B2)] S.amount).2.1,
          closed_lots := (sellLoop S [(0, mkOpenLot B1), (1, mkOpenLot B2)] S.amount).1,
          oversell := (sellLoop S [(0, mkOpenLot B1), (1, mkOpenLot B2)] S.amount).2.2 } := by
    simp only [process_sell_fill, htl, hsort]
  have hstate : processFills [B1, B2, S]
      = { open_lots := applyUpdates
            [(B1.token_address, mkOpenLot B1), (B2.token_address, mkOpenLot B2)]
            (sellLoop S [(0, mkOpenLot B1), (1, mkOpenLot B2)] S.amount).2.1,
          closed_lots := (sellLoop S [(0, mkOpenLot B1), (1, mkOpenLot B2)] S.amount).1 } := by
    show process_fill (process_fill (process_fill initialTracker B1) B2) S = _
    rw [s1, s2]
    simp only [process_fill, hd3, if_neg sell_ne_buy, hps, List.nil_append, if_true]
  have hrem1 : (mkOpenLot B1).remaining_amount = B1.amount := rfl
  have hrem2 : (mkOpenLot B2).remaining_amount = B2.amount := rfl
  rcases le_or_lt S.amount B1.amount with hle | hgt
  · exfalso
    have hz : S.amount - min S.amount B1.amount ≤ 0 := by
      rw [min_eq_left hle]
      simp
    have hloop : (sellLoop S [(0, mkOpenLot B1), (1, mkOpenLot B2)] S.amount).1
        = [mkClosedLot S (mkOpenLot B1) (min S.amount B1.amount)] := by
      simp only [sellLoop, hrem1, if_neg (not_le.mpr hs0), if_pos hz]
    obtain ⟨c, hc, hcB2⟩ := hex
    rw [hstate] at hc
    simp only [hloop, List.mem_singleton] at hc
    subst hc
    exact hne hcB2
  · have hpos2 : 0 < S.amount - B1.amount := sub_pos.mpr hgt
    have hmin1 : min S.amount B1.amount = B1.amount :=
      min_eq_right hgt.le
    have hloop : sellLoop S [(0, mkOpenLot B1), (1, mkOpenLot B2)] S.amount
        = (mkClosedLot S (mkOpenLot B1) B1.amount ::
             [mkClosedLot S (mkOpenLot B2) (min (S.amount - B1.amount) B2.amount)],
           (0, B1.amount - B1.amount) ::
             [(1, B2.amount - min (S.amount - B1.amount) B2.amount)],
           S.amount - B1.amount - min (S.amount - B1.amount) B2.amount) := by
      simp only [sellLoop, hrem1, hrem2, if_neg (not_le.mpr hs0), hmin1,
        if_neg (not_le.mpr hpos2)]
    have hsr1 : ∀ (p q : String × TradeLot) (rest : List (String × TradeLot)) (v : ℚ),
        setRemaining (p :: q :: rest) 1 v
          = p :: (q.1, { q.2 with remaining_amount := v }) :: rest :=
      fun _ _ _ _ => rfl
    refine ⟨?_, ?_, ?_⟩
    · rw [hstate]
      show ((sellLoop S [(0, mkOpenLot B1), (1, mkOpenLot B2)] S.amount).1.map
          fun c => c.entry_fill) = [B1, B2]
      rw [hloop]
      rfl
    · rw [hstate]
      show (((sellLoop S [(0, mkOpenLot B1), (1, mkOpenLot B2)] S.amount).1.map
          fun c => c.trade_amount).head?) = some B1.amount
      rw [hloop]
      rfl
    · rw [hstate]
      show ((applyUpdates [(B1.token_address, mkOpenLot B1), (B2.token_address, mkOpenLot B2)]
          (sellLoop S [(0, mkOpenLot B1), (1, mkOpenLot B2)] S.amount).2.1).map
          fun p => p.2.remaining_amount).head? = some 0
      rw [hloop]
      simp only [applyUpdates, List.foldl_cons, List.foldl_nil, setRemaining, hsr1,
        List.map_cons, List.head?_cons, sub_self]

/-- C4 witness: buy 100 at t=0, buy 100 at t=86400, sell 150 — the closed
lots reference the older buy first and consume it fully. -/
theorem c4_fifo_witness :
    ((processFills [sampleBuy, laterBuy, fifoSell]).closed_lots.map
        fun c => c.entry_fill) = [sampleBuy, laterBuy] ∧
    ((processFills [sampleBuy, laterBuy, fifoSell]).closed_lots.map
        fun c => c.trade_amount).head? = some sampleBuy.amount ∧
    ((processFills [sampleBuy, laterBuy, fifoSell]).open_lots.map
        fun p => p.2.remaining_amount).head? = some 0 := by
  have hcl : ((processFills [sampleBuy, laterBuy, fifoSell]).closed_lots.map
      fun c => c.entry_fill) = [sampleBuy, laterBuy] := by
    simp only [processFills, List.foldl_cons, List.foldl_nil, process_fill,
      process_sell_fill, tokenLots, tokenLotsFrom, sortLotsByEntry, sellLoop,
      applyUpdates, setRemaining, mkOpenLot, mkClosedLot, sampleBuy, laterBuy,
      fifoSell, sampleSell, initialTracker, List.insertionSort, List.orderedInsert,
      min_def, if_neg sell_ne_buy]
    norm_num
  have hex : ∃ c ∈ (processFills [sampleBuy, laterBuy, fifoSell]).closed_lots,
      c.entry_fill = laterBuy := by
    have hm : laterBuy ∈ ((processFills [sampleBuy, laterBuy, fifoSell]).closed_lots.map
        fun c => c.entry_fill) := by
      rw [hcl]
      simp
    obtain ⟨c, hc, hfc⟩ := List.mem_map.mp hm
    exact ⟨c, hc, hfc⟩
  exact c4_fifo_oldest_first sampleBuy laterBuy fifoSell rfl rfl rfl rfl rfl
    (by decide) (by decide) (by decide) (by decide)
    (by norm_num [fifoSell, sampleSell, sampleBuy, laterBuy]) hex

/-! ### C5 — value conservation lemmas -/

lemma sumTradeFor_append_one (cls : List ClosedTradeLot) (c : ClosedTradeLot) (f : Fill) :
    sumTradeFor (cls ++ [c]) f
      = sumTradeFor cls f + (if c.entry_fill = f then c.trade_amount else 0) := by
  unfold sumTradeFor
  rw [List.filter_append, List.map_append, List.sum_append]
  by_cases h : c.entry_fill = f
  · rw [if_pos h]
    have he : List.filter (fun x => decide (x.entry_fill = f)) [c] = [c] := by
      simp [h]
    rw [he]
    simp
  · rw [if_neg h]
    have he : List.filter (fun x => decide (x.entry_fill = f)) [c] = [] := by
      simp [h]
    rw [he]
    simp

lemma sumTradeFor_eq_zero (cls : List ClosedTradeLot) (f : Fill)
    (h : ∀ c ∈ cls, c.entry_fill ≠ f) : sumTradeFor cls f = 0 := by
  unfold sumTradeFor
  have he : List.filter (fun x => decide (x.entry_fill = f)) cls = [] := by
    apply List.filter_eq_nil_iff.mpr
    intro c hc
    simp [h c hc]
  rw [he]
  rfl

lemma lotKeys_nodup_ne (lots : List (String × TradeLot)) (h : (lotKeys lots).Nodup)
    {i j : ℕ} {p q : String × TradeLot}
    (hi : lots[i]? = some p) (hj : lots[j]? = some q) (hij : i ≠ j) :
    p.2.entry_fill ≠ q.2.entry_fill := by
  intro he
  apply hij
  have hi2 : (lotKeys lots)[i]? = some (fillKey p.2.entry_fill) := by
    unfold lotKeys
    rw [List.getElem?_map, hi]
    rfl
  have hj2 : (lotKeys lots)[j]? = some (fillKey q.2.entry_fill) := by
    unfold lotKeys
    rw [List.getElem?_map, hj]
    rfl
  obtain ⟨hlen, -⟩ := List.getElem?_eq_some.mp hi2
  exact List.getElem?_inj hlen h (by rw [hi2, hj2, he])

lemma setRemaining_getElem_ne :
    ∀ (l : List (String × TradeLot)) (i j : ℕ) (v : ℚ), i ≠ j →
      (setRemaining l i v)[j]? = l[j]? := by
  intro l
  induction l with
  | nil => intro i j v hij; rfl
  | cons p rest ih =>
      intro i j v hij
      cases i with
      | zero =>
          cases j with
          | zero => exact absurd rfl hij
          | succ j => rfl
      | succ i =>
          cases j with
          | zero => simp only [setRemaining, List.getElem?_cons_zero]
          | succ j =>
              simp only [setRemaining, List.getElem?_cons_succ]
              exact ih i j v (fun h => hij (by rw [h]))

lemma setRemaining_getElem_eq :
    ∀ (l : List (String × TradeLot)) (i : ℕ) (v : ℚ) (t : String) (lot : TradeLot),
      l[i]? = some (t, lot) →
      (setRemaining l i v)[i]? = some (t, { lot with remaining_amount := v }) := by
  intro l
  induction l with
  | nil => intro i v t lot h; simp at h
  | cons p rest ih =>
      intro i v t lot h
      cases i with
      | zero =>
          simp only [List.getElem?_cons_zero, Option.some.injEq] at h
          subst h
          simp only [setRemaining, List.getElem?_cons_zero]
      | succ i =>
          simp only [setRemaining, List.getElem?_cons_succ]
          exact ih i v t lot (by simpa using h)

lemma tokenLotsFrom_fst_ge (token : String) :
    ∀ (l : List (String × TradeLot)) (n : ℕ), ∀ p ∈ tokenLotsFrom token n l, n ≤ p.1 := by
  intro l
  induction l with
  | nil => intro n p hp; simp [tokenLotsFrom] at hp
  | cons q rest ih =>
      intro n p hp
      obtain ⟨t, lot⟩ := q
      by_cases hc : t = token ∧ 0 < lot.remaining_amount
      · rw [tokenLotsFrom, if_pos hc] at hp
        rcases List.mem_cons.mp hp with rfl | hp
        · exact le_refl n
        · exact le_trans (Nat.le_succ n) (ih (n + 1) p hp)
      · rw [tokenLotsFrom, if_neg hc] at hp
        exact le_trans (Nat.le_succ n) (ih (n + 1) p hp)

lemma tokenLotsFrom_fst_nodup (token : String) :
    ∀ (l : List (String × TradeLot)) (n : ℕ),
      ((tokenLotsFrom token n l).map Prod.fst).Nodup := by
  intro l
  induction l with
  | nil => intro n; simp [tokenLotsFrom]
  | cons q rest ih =>
      intro n
      obtain ⟨t, lot⟩ := q
      by_cases hc : t = token ∧ 0 < lot.remaining_amount
      · rw [tokenLotsFrom, if_pos hc]
        rw [List.map_cons, List.nodup_cons]
        refine ⟨?_, ih (n + 1)⟩
        intro hmem
        obtain ⟨p, hp, he⟩ := List.mem_map.mp hmem
        have := tokenLotsFrom_fst_ge token rest (n + 1) p hp
        omega
      · rw [tokenLotsFrom, if_neg hc]
        exact ih (n + 1)

lemma sell_step_preserve (sell : Fill) :
    ∀ (tl : List (ℕ × TradeLot)) (lots : List (String × TradeLot))
      (closed : List ClosedTradeLot) (r : ℚ),
      (∀ p ∈ tl, lots[p.1]? = some (sell.token_address, p.2) ∧ 0 < p.2.remaining_amount) →
      (tl.map Prod.fst).Nodup →
      TrackerInv ⟨lots, closed⟩ →
      TrackerInv ⟨applyUpdates lots (sellLoop sell tl r).2.1,
                  closed ++ (sellLoop sell tl r).1⟩ := by
  intro tl
  induction tl with
  | nil =>
      intro lots closed r htl hnd hinv
      simpa only [sellLoop, applyUpdates, List.foldl_nil, List.append_nil] using hinv
  | cons q rest ih =>
      intro lots closed r htl hnd hinv
      obtain ⟨i, lot⟩ := q
      obtain ⟨hget, hpos⟩ := htl (i, lot) (List.mem_cons_self _ _)
      have hnd2 := List.nodup_cons.mp (by simpa only [List.map_cons] using hnd)
      by_cases hr : r ≤ 0
      · simp only [sellLoop, if_pos hr]
        simpa only [applyUpdates, List.foldl_nil, List.append_nil] using hinv
      · obtain ⟨hknd, hposinv, href⟩ := hinv
        obtain ⟨h0i, hlei, hsumi⟩ := hposinv i sell.token_address lot hget
        have hm0 : 0 < min r lot.remaining_amount := lt_min (not_le.mp hr) hpos
        have hmle : min r lot.remaining_amount ≤ lot.remaining_amount := min_le_right _ _
        simp only [sellLoop, if_neg hr]
        set m := min r lot.remaining_amount with hmdef
        have happly : applyUpdates lots
            ((i, lot.remaining_amount - m) :: (sellLoop sell rest (r - m)).2.1)
            = applyUpdates (setRemaining lots i (lot.remaining_amount - m))
                (sellLoop sell rest (r - m)).2.1 := rfl
        have happend : closed ++ (mkClosedLot sell lot m :: (sellLoop sell rest (r - m)).1)
            = (closed ++ [mkClosedLot sell lot m]) ++ (sellLoop sell rest (r - m)).1 := by
          simp
        rw [happly, happend]
        apply ih (setRemaining lots i (lot.remaining_amount - m))
          (closed ++ [mkClosedLot sell lot m]) (r - m)
        · intro p hp
          have hne : i ≠ p.1 := by
            intro h
            exact hnd2.1 (h ▸ List.mem_map_of_mem Prod.fst hp)
          rw [setRemaining_getElem_ne lots i p.1 _ hne]
          exact htl p (List.mem_cons_of_mem _ hp)
        · exact hnd2.2
        · refine ⟨?_, ?_, ?_⟩
          · show (lotKeys (setRemaining lots i (lot.remaining_amount - m))).Nodup
            unfold lotKeys
            rw [setRemaining_map (fun p => fillKey p.2.entry_fill) (fun t lt v => rfl)
              lots i _]
            exact hknd
          · intro j t2 lot2 hget2
            by_cases hj : j = i
            · subst hj
              rw [setRemaining_getElem_eq lots j _ sell.token_address lot hget] at hget2
              simp only [Option.some.injEq, Prod.mk.injEq] at hget2
              obtain ⟨ht2, hlot2⟩ := hget2
              subst hlot2
              refine ⟨?_, ?_, ?_⟩
              · show 0 ≤ lot.remaining_amount - m
                linarith
              · show lot.remaining_amount - m ≤ lot.entry_amount
                linarith [hm0]
              · show sumTradeFor (closed ++ [mkClosedLot sell lot m]) lot.entry_fill
                    = lot.entry_amount - (lot.remaining_amount - m)
                rw [sumTradeFor_append_one,
                  if_pos (show (mkClosedLot sell lot m).entry_fill = lot.entry_fill
                    from rfl), hsumi]
                show lot.entry_amount - lot.remaining_amount + m
                    = lot.entry_amount - (lot.remaining_amount - m)
                ring
            · rw [setRemaining_getElem_ne lots i j _ (fun h => hj h.symm)] at hget2
              obtain ⟨h0j, hlej, hsumj⟩ := hposinv j t2 lot2 hget2
              refine ⟨h0j, hlej, ?_⟩
              rw [sumTradeFor_append_one]
              have hneq : (mkClosedLot sell lot m).entry_fill ≠ lot2.entry_fill := by
                show lot.entry_fill ≠ lot2.entry_fill
                exact lotKeys_nodup_ne lots hknd hget hget2 (fun h => hj h.symm)
              rw [if_neg hneq, add_zero]
              exact hsumj
          · intro c hc
            rcases List.mem_append.mp hc with hc | hc
            · obtain ⟨j, t2, lot2, hget2, he⟩ := href c hc
              by_cases hj : j = i
              · subst hj
                rw [hget] at hget2
                simp only [Option.some.injEq, Prod.mk.injEq] at hget2
                obtain ⟨h1, h2⟩ := hget2
                subst h2
                refine ⟨j, sell.token_address,
                  { lot with remaining_amount := lot.remaining_amount - m },
                  setRemaining_getElem_eq lots j _ _ lot hget, ?_⟩
                exact he
              · exact ⟨j, t2, lot2,
                  by rw [setRemaining_getElem_ne lots i j _ (fun h => hj h.symm)]
                     exact hget2, he⟩
            · simp only [List.mem_singleton] at hc
              subst hc
              exact ⟨i, sell.token_address,
                { lot with remaining_amount := lot.remaining_amount - m },
                setRemaining_getElem_eq lots i _ _ lot hget, rfl⟩

lemma process_sell_preserve (sell : Fill) (lots : List (String × TradeLot))
    (closed : List ClosedTradeLot) (hinv : TrackerInv ⟨lots, closed⟩) :
    TrackerInv ⟨(process_sell_fill sell lots).wallet_lots,
                closed ++ (process_sell_fill sell lots).closed_lots⟩ := by
  have hperm : List.Perm (sortLotsByEntry (tokenLots lots sell.token_address))
      (tokenLots lots sell.token_address) := sortLotsByEntry_perm _
  have htl : ∀ p ∈ sortLotsByEntry (tokenLots lots sell.token_address),
      lots[p.1]? = some (sell.token_address, p.2) ∧ 0 < p.2.remaining_amount := by
    intro p hp
    have hp2 := hperm.mem_iff.mp hp
    obtain ⟨j, hj1, hj2⟩ := tokenLotsFrom_mem_get sell.token_address lots 0 p hp2
    refine ⟨?_, tokenLotsFrom_mem_pos sell.token_address lots 0 p hp2⟩
    rw [hj1, Nat.zero_add]
    exact hj2
  have hnd : ((sortLotsByEntry (tokenLots lots sell.token_address)).map Prod.fst).Nodup :=
    (hperm.map Prod.fst).nodup_iff.mpr (tokenLotsFrom_fst_nodup sell.token_address lots 0)
  exact sell_step_preserve sell _ lots closed sell.amount htl hnd hinv

lemma process_buy_preserve (fill : Fill) (lots : List (String × TradeLot))
    (closed : List ClosedTradeLot) (hinv : TrackerInv ⟨lots, closed⟩)
    (hamt : 0 ≤ fill.amount)
    (hfresh : ∀ p ∈ lots, fillKey p.2.entry_fill ≠ fillKey fill) :
    TrackerInv ⟨lots ++ [(fill.token_address, mkOpenLot fill)], closed⟩ := by
  obtain ⟨hknd, hpos, href⟩ := hinv
  have hnofill : ∀ c ∈ closed, c.entry_fill ≠ fill := by
    intro c hc he
    obtain ⟨j, t2, lot2, hget2, he2⟩ := href c hc
    have hmem : (t2, lot2) ∈ lots := List.getElem?_mem hget2
    exact hfresh (t2, lot2) hmem (by rw [← he2, he])
  refine ⟨?_, ?_, ?_⟩
  · show (lotKeys (lots ++ [(fill.token_address, mkOpenLot fill)])).Nodup
    unfold lotKeys
    rw [List.map_append, List.nodup_append]
    refine ⟨hknd, by simp, ?_⟩
    intro k hk
    obtain ⟨p, hp, he⟩ := List.mem_map.mp hk
    subst he
    intro hmem
    simp only [List.map_cons, List.map_nil, List.mem_singleton] at hmem
    exact hfresh p hp hmem
  · intro i t lot hget
    rcases Nat.lt_or_ge i lots.length with hi | hi
    · rw [List.getElem?_append_left hi] at hget
      exact hpos i t lot hget
    · rw [List.getElem?_append_right hi] at hget
      rcases hd : i - lots.length with _ | k
      · rw [hd] at hget
        simp only [List.getElem?_cons_zero, Option.some.injEq, Prod.mk.injEq] at hget
        obtain ⟨h1, h2⟩ := hget
        subst h2
        refine ⟨hamt, le_refl _, ?_⟩
        rw [sumTradeFor_eq_zero closed (mkOpenLot fill).entry_fill hnofill]
        show (0 : ℚ) = fill.amount - fill.amount
        rw [sub_self]
      · rw [hd] at hget
        simp at hget
  · intro c hc
    obtain ⟨j, t2, lot2, hget2, he⟩ := href c hc
    refine ⟨j, t2, lot2, ?_, he⟩
    have hj : j < lots.length := by
      obtain ⟨h, -⟩ := List.getElem?_eq_some.mp hget2
      exact h
    rw [List.getElem?_append_left hj]
    exact hget2

lemma process_fill_preserve (st : LotTrackerState) (f : Fill)
    (hinv : TrackerInv st) (hamt : 0 ≤ f.amount)
    (hfresh : ∀ p ∈ st.open_lots, fillKey p.2.entry_fill ≠ fillKey f) :
    TrackerInv (process_fill st f) := by
  obtain ⟨lots, closed⟩ := st
  unfold process_fill
  split_ifs with h1 h2
  · exact process_buy_preserve f lots closed hinv hamt hfresh
  · exact process_sell_preserve f lots closed hinv
  · exact hinv

lemma process_fill_fills (st : LotTrackerState) (f : Fill) (seen : List Fill)
    (h : ∀ p ∈ st.open_lots, p.2.entry_fill ∈ seen) :
    ∀ p ∈ (process_fill st f).open_lots, p.2.entry_fill ∈ seen ++ [f] := by
  obtain ⟨lots, closed⟩ := st
  unfold process_fill
  split_ifs with h1 h2
  · intro p hp
    rcases List.mem_append.mp hp with hp | hp
    · exact List.mem_append_left _ (h p hp)
    · simp only [List.mem_singleton] at hp
      subst hp
      exact List.mem_append_right _ (by simp [mkOpenLot])
  · intro p hp
    have hmap := applyUpdates_map (fun p => p.2.entry_fill) (fun t lot v => rfl)
      (sellLoop f (sortLotsByEntry (tokenLots lots f.token_address)) f.amount).2.1 lots
    have hin : p.2.entry_fill ∈ lots.map fun p => p.2.entry_fill := by
      rw [← hmap]
      exact List.mem_map_of_mem _ hp
    obtain ⟨q, hq, he⟩ := List.mem_map.mp hin
    rw [← he]
    exact List.mem_append_left _ (h q hq)
  · intro p hp
    exact List.mem_append_left _ (h p hp)

lemma processFills_go (rest : List Fill) :
    ∀ (seen : List Fill) (st : LotTrackerState),
      TrackerInv st →
      (∀ p ∈ st.open_lots, p.2.entry_fill ∈ seen) →
      ((seen ++ rest).map fillKey).Nodup →
      (∀ f ∈ rest, 0 ≤ f.amount) →
      TrackerInv (rest.foldl process_fill st) := by
  induction rest with
  | nil =>
      intro seen st hinv hsub hnd hamt
      exact hinv
  | cons f rest ih =>
      intro seen st hinv hsub hnd hamt
      rw [List.foldl_cons]
      have hdisj : List.Disjoint (seen.map fillKey) ((f :: rest).map fillKey) := by
        have := hnd
        rw [List.map_append, List.nodup_append] at this
        exact this.2.2
      apply ih (seen ++ [f])
      · apply process_fill_preserve st f hinv (hamt f (List.mem_cons_self _ _))
        intro p hp heq
        exact hdisj (List.mem_map_of_mem fillKey (hsub p hp))
          (by rw [heq]; exact List.mem_map_of_mem fillKey (List.mem_cons_self _ _))
      · exact process_fill_fills st f seen hsub
      · rw [List.append_assoc]
        simpa using hnd
      · exact fun g hg => hamt g (List.mem_cons_of_mem _ hg)

/-! ### C5 — value conservation -/

/-- C5: starting from the empty tracker and processing any fill sequence
with nonnegative amounts (token amounts are quotients of nonnegative raw
integer word values) and pairwise-distinct (tx hash, log index) keys (the
schema's unique fill key), every open lot of the resulting state satisfies:
the closed-lot trade amounts attributed to its originating BUY fill sum to
at most its entry amount, its remaining amount is nonnegative, and when it
is fully sold (remaining = 0) the sum equals the entry amount exactly.
Every intermediate state is the final state of a prefix of the sequence,
so the statement covers the whole run. -/
theorem c5_value_conservation (fills : List Fill)
    (hamt : ∀ f ∈ fills, 0 ≤ f.amount)
    (hkeys : (fills.map fillKey).Nodup) :
    ∀ (i : ℕ) (t : String) (lot : TradeLot),
      (processFills fills).open_lots[i]? = some (t, lot) →
      0 ≤ lot.remaining_amount ∧
      sumTradeFor (processFills fills).closed_lots lot.entry_fill ≤ lot.entry_amount ∧
      (lot.remaining_amount = 0 →
        sumTradeFor (processFills fills).closed_lots lot.entry_fill
          = lot.entry_amount) := by
  have hinv : TrackerInv (processFills fills) := by
    apply processFills_go fills [] initialTracker
    · refine ⟨List.nodup_nil, ?_, ?_⟩
      · intro i t lot h
        simp [initialTracker] at h
      · intro c hc
        simp [initialTracker] at hc
    · intro p hp
      simp [initialTracker] at hp
    · simpa using hkeys
    · exact hamt
  obtain ⟨hknd, hpos, href⟩ := hinv
  intro i t lot hget
  obtain ⟨h0, hle, hsum⟩ := hpos i t lot hget
  refine ⟨h0, ?_, ?_⟩
  · rw [hsum]
    linarith
  · intro hz
    rw [hsum, hz, sub_zero]

/-- C5 witness: a single BUY creates one lot with remaining = entry and a
zero attributed closed sum. -/
theorem c5_value_conservation_witness :
    0 ≤ (mkOpenLot sampleBuy).remaining_amount ∧
    sumTradeFor (processFills [sampleBuy]).closed_lots (mkOpenLot sampleBuy).entry_fill
        ≤ (mkOpenLot sampleBuy).entry_amount ∧
    ((mkOpenLot sampleBuy).remaining_amount = 0 →
      sumTradeFor (processFills [sampleBuy]).closed_lots (mkOpenLot sampleBuy).entry_fill
        = (mkOpenLot sampleBuy).entry_amount) :=
  c5_value_conservation [sampleBuy] (by decide) (by decide) 0
    sampleBuy.token_address (mkOpenLot sampleBuy) (by decide)
